import Mathlib

/-!
Verification of `rest_framework_nested/viewsets.py` (NestedViewSetMixin.get_queryset).

The Python method filters the base queryset by the resolved
`parent_lookup_kwargs` mapping: for each entry `(query_param, field_name)`,
if `field_name` is a tuple it builds an OR of Q-equalities (one per field,
all against `self.kwargs[query_param]`) and appends it to the positional
filter list; otherwise it stores `field_name -> self.kwargs[query_param]`
into a keyword-filter dict.  Finally it calls
`queryset.filter(*orm_arg_filters, **orm_kwargs_filters)`, which keeps the
records satisfying the conjunction of all terms.

The embedding below mirrors that code step by step:
* records are an abstract type `α` with a field-equality oracle
  `fieldEq : α → String → String → Bool` (the query engine contract:
  does record `r` match the lookup `field = value`);
* a Python dict is an ordered association list; dict assignment keeps the
  position of an existing key and overwrites its value, as in CPython;
* `self.kwargs[query_param]` raises `KeyError` when absent — modelled with
  `Except`;
* `functools.reduce(operator.or_, gen)` on an empty generator raises
  `TypeError` before any element (and hence before any kwargs lookup) is
  evaluated — modelled as `typeErrorReduceEmpty`;
* a `set` field reference fails `isinstance(field_name, tuple)` and falls
  into the dict-assignment branch, where using the (unhashable) set as a
  dict key raises `TypeError`; the right-hand side `self.kwargs[query_param]`
  is evaluated first, so a missing parameter still raises `KeyError` there —
  modelled as `typeErrorUnhashable` after a successful parameter lookup.
-/

namespace DrfNested

/-- A field reference in `parent_lookup_kwargs`: a plain string, a tuple of
strings, or a Python set of strings (the latter appears in the spec; the code
only special-cases tuples). -/
inductive FieldRef : Type where
  | single (field : String)
  | tup (fields : List String)
  | set (fields : List String)
deriving DecidableEq, Repr

/-- A Django Q object as used by the code: a single equality lookup or an OR
of two Q objects (`operator.or_`). -/
inductive Q : Type where
  | eq (field value : String)
  | or (a b : Q)
deriving DecidableEq, Repr

/-- Whether record `r` satisfies a Q object, given the query-engine oracle
`fieldEq` for single field lookups. -/
def Q.matches {α : Type} (fieldEq : α → String → String → Bool) : Q → α → Bool
  | .eq f v, r => fieldEq r f v
  | .or a b, r => a.matches fieldEq r || b.matches fieldEq r

/-- The exceptions `get_queryset` can raise while building the filters. -/
inductive FilterError : Type where
  | keyError (param : String)
  | typeErrorReduceEmpty
  | typeErrorUnhashable
deriving DecidableEq, Repr

/-- `self.kwargs[query_param]`: dict subscription, raising KeyError when the
path parameter is absent. -/
def lookupParam (kwargs : List (String × String)) (p : String) :
    Except FilterError String :=
  match kwargs.lookup p with
  | some v => .ok v
  | none => .error (.keyError p)

/-- Python dict assignment `d[k] = v` on an ordered association list: if the
key is present its value is overwritten in place, otherwise the pair is
appended at the end. -/
def dictInsert (d : List (String × String)) (k v : String) :
    List (String × String) :=
  if d.any (fun kv => kv.1 == k) then
    d.map (fun kv => if kv.1 == k then (k, v) else kv)
  else
    d ++ [(k, v)]

/-- One iteration of the `for query_param, field_name in
parent_lookup_kwargs.items()` loop, threading the accumulated
`(orm_arg_filters, orm_kwargs_filters)` pair. -/
def processEntry (kwargs : List (String × String))
    (acc : List Q × List (String × String)) :
    String × FieldRef → Except FilterError (List Q × List (String × String))
  | (p, .single f) =>
    match lookupParam kwargs p with
    | .ok v => .ok (acc.1, dictInsert acc.2 f v)
    | .error e => .error e
  | (p, .tup fs) =>
    match fs with
    | [] => .error .typeErrorReduceEmpty
    | f :: rest =>
      match lookupParam kwargs p with
      | .ok v =>
        .ok (acc.1 ++ [(rest.map (fun g => Q.eq g v)).foldl Q.or (Q.eq f v)],
             acc.2)
      | .error e => .error e
  | (p, .set _) =>
    match lookupParam kwargs p with
    | .ok _ => .error .typeErrorUnhashable
    | .error e => .error e

/-- The whole loop over `parent_lookup_kwargs.items()`, aborting on the first
raised exception. -/
def buildFilters (kwargs : List (String × String)) :
    List Q × List (String × String) → List (String × FieldRef) →
    Except FilterError (List Q × List (String × String))
  | acc, [] => .ok acc
  | acc, e :: rest =>
    match processEntry kwargs acc e with
    | .ok acc2 => buildFilters kwargs acc2 rest
    | .error err => .error err

/-- Whether a record passes `queryset.filter(*args, **kw)`: the conjunction
of all positional Q filters and all keyword equality filters. -/
def satisfiesFilters {α : Type} (fieldEq : α → String → String → Bool)
    (args : List Q) (kw : List (String × String)) (r : α) : Bool :=
  args.all (fun q => q.matches fieldEq r) &&
    kw.all (fun fv => fieldEq r fv.1 fv.2)

/-- `queryset.filter(*args, **kw)` over a list-modelled queryset. -/
def querysetFilter {α : Type} (fieldEq : α → String → String → Bool)
    (args : List Q) (kw : List (String × String)) (qs : List α) : List α :=
  qs.filter (satisfiesFilters fieldEq args kw)

/-- Python truthiness of an optional mapping: `None` and the empty dict are
falsy. -/
def truthyMap (m : Option (List (String × FieldRef))) : Bool :=
  match m with
  | none => false
  | some l => !l.isEmpty

/-- The resolution of `parent_lookup_kwargs`: the attribute on the viewset
when truthy, otherwise the attribute on the serializer class
(`if not parent_lookup_kwargs: parent_lookup_kwargs = getattr(serializer_class, ...)`). -/
def resolvedLookup (viewsetLookup serializerLookup :
    Option (List (String × FieldRef))) : Option (List (String × FieldRef)) :=
  if truthyMap viewsetLookup then viewsetLookup else serializerLookup

/-- `NestedViewSetMixin.get_queryset`: `queryset` is what
`super().get_queryset()` returned, `viewsetLookup` / `serializerLookup` are
the `parent_lookup_kwargs` attributes of the viewset and of its serializer
class (`none` when the attribute is absent), and `kwargs` is `self.kwargs`,
the path parameters of the current request. -/
def get_queryset {α : Type} (fieldEq : α → String → String → Bool)
    (queryset : List α)
    (viewsetLookup serializerLookup : Option (List (String × FieldRef)))
    (kwargs : List (String × String)) : Except FilterError (List α) :=
  match resolvedLookup viewsetLookup serializerLookup with
  | some m =>
    if m.isEmpty then .ok queryset
    else
      match buildFilters kwargs ([], []) m with
      | .ok af => .ok (querysetFilter fieldEq af.1 af.2 queryset)
      | .error e => .error e
  | none => .ok queryset

/-! ### A concrete record instance for witnesses and counterexamples -/

/-- A concrete record: a finite assignment of string values to field paths. -/
abbrev RecordL : Type := List (String × String)

/-- The concrete query-engine oracle for `RecordL`: a record matches
`field = value` when its stored value at that field path is `value`. -/
def recFieldEq (r : RecordL) (f v : String) : Bool :=
  r.lookup f == some v

/-! ### Specification-side helpers -/

/-- The constraint an individual mapping entry denotes, per the spec: a
single-field entry is the equality on that field, a tuple entry is the
disjunction of the equalities over its fields, all against the value of the
path parameter of the entry. -/
def entrySat {α : Type} (fieldEq : α → String → String → Bool)
    (kwargs : List (String × String)) (r : α) : String × FieldRef → Bool
  | (p, .single f) =>
    match kwargs.lookup p with
    | some v => fieldEq r f v
    | none => false
  | (p, .tup fs) =>
    match kwargs.lookup p with
    | some v => fs.any (fun f => fieldEq r f v)
    | none => false
  | (_, .set _) => false

/-- The field paths of the single-field entries of a mapping, in order. -/
def singleFields (m : List (String × FieldRef)) : List String :=
  m.filterMap (fun e =>
    match e.2 with
    | .single f => some f
    | _ => none)

/-- A field reference the code handles without a TypeError: a single field
path or a nonempty tuple. -/
def wellFormedRef : FieldRef → Bool
  | .single _ => true
  | .tup fs => !fs.isEmpty
  | .set _ => false

/-! ### Helper lemmas -/

lemma list_any_map {α β : Type} (f : α → β) (l : List α) (p : β → Bool) :
    (l.map f).any p = l.any (fun x => p (f x)) := by
  induction l with
  | nil => rfl
  | cons x xs ih => simp [ih]

lemma matches_foldl_or {α : Type} (fieldEq : α → String → String → Bool)
    (qs : List Q) (q0 : Q) (r : α) :
    Q.matches fieldEq (qs.foldl Q.or q0) r
      = (Q.matches fieldEq q0 r || qs.any (fun q => Q.matches fieldEq q r)) := by
  induction qs generalizing q0 with
  | nil => simp
  | cons q qs ih =>
    simp only [List.foldl_cons, ih, List.any_cons]
    simp [Q.matches, Bool.or_assoc]

lemma satisfiesFilters_args_append {α : Type}
    (fieldEq : α → String → String → Bool) (args : List Q)
    (kw : List (String × String)) (q : Q) (r : α) :
    satisfiesFilters fieldEq (args ++ [q]) kw r
      = (satisfiesFilters fieldEq args kw r && Q.matches fieldEq q r) := by
  simp only [satisfiesFilters, List.all_append, List.all_cons, List.all_nil,
    Bool.and_true]
  cases args.all (fun q => Q.matches fieldEq q r) <;>
    cases kw.all (fun fv => fieldEq r fv.1 fv.2) <;>
    cases Q.matches fieldEq q r <;> rfl

lemma dictInsert_fresh (kw : List (String × String)) (f v : String)
    (hf : ∀ fv ∈ kw, fv.1 ≠ f) : dictInsert kw f v = kw ++ [(f, v)] := by
  unfold dictInsert
  rw [if_neg]
  simp only [List.any_eq_true, beq_iff_eq, not_exists, not_and]
  intro fv hfv
  exact hf fv hfv

lemma satisfiesFilters_kw_append {α : Type}
    (fieldEq : α → String → String → Bool) (args : List Q)
    (kw : List (String × String)) (f v : String) (r : α) :
    satisfiesFilters fieldEq args (kw ++ [(f, v)]) r
      = (satisfiesFilters fieldEq args kw r && fieldEq r f v) := by
  simp only [satisfiesFilters, List.all_append, List.all_cons, List.all_nil,
    Bool.and_true]
  cases args.all (fun q => Q.matches fieldEq q r) <;>
    cases kw.all (fun fv => fieldEq r fv.1 fv.2) <;>
    cases fieldEq r f v <;> rfl

lemma get_queryset_resolved {α : Type} (fieldEq : α → String → String → Bool)
    (base : List α) (vl sl : Option (List (String × FieldRef)))
    (kwargs : List (String × String)) (m : List (String × FieldRef))
    (hres : resolvedLookup vl sl = some m) (hm : m ≠ []) :
    get_queryset fieldEq base vl sl kwargs =
      match buildFilters kwargs ([], []) m with
      | .ok af => .ok (querysetFilter fieldEq af.1 af.2 base)
      | .error e => .error e := by
  unfold get_queryset
  rw [hres]
  dsimp only
  rw [if_neg]
  simpa using hm

lemma get_queryset_single_entry {α : Type}
    (fieldEq : α → String → String → Bool) (base : List α)
    (vl sl : Option (List (String × FieldRef)))
    (kwargs : List (String × String)) (p f v : String)
    (hres : resolvedLookup vl sl = some [(p, FieldRef.single f)])
    (hv : kwargs.lookup p = some v) :
    get_queryset fieldEq base vl sl kwargs
      = .ok (base.filter (fun r => fieldEq r f v)) := by
  rw [get_queryset_resolved fieldEq base vl sl kwargs _ hres (by simp)]
  simp only [buildFilters, processEntry, lookupParam, hv, dictInsert,
    querysetFilter]
  simp only [List.any_nil, Bool.false_eq_true, if_false, List.nil_append,
    Except.ok.injEq]
  apply List.filter_congr
  intro r _
  simp [satisfiesFilters]

lemma get_queryset_tuple_entry {α : Type}
    (fieldEq : α → String → String → Bool) (base : List α)
    (vl sl : Option (List (String × FieldRef)))
    (kwargs : List (String × String)) (p v f : String) (fs : List String)
    (hres : resolvedLookup vl sl = some [(p, FieldRef.tup (f :: fs))])
    (hv : kwargs.lookup p = some v) :
    get_queryset fieldEq base vl sl kwargs
      = .ok (base.filter (fun r => (f :: fs).any (fun g => fieldEq r g v))) := by
  rw [get_queryset_resolved fieldEq base vl sl kwargs _ hres (by simp)]
  simp only [buildFilters, processEntry, lookupParam, hv, querysetFilter,
    Except.ok.injEq]
  apply List.filter_congr
  intro r _
  simp [satisfiesFilters, matches_foldl_or, Q.matches, list_any_map]

lemma get_queryset_set_entry {α : Type}
    (fieldEq : α → String → String → Bool) (base : List α)
    (kwargs : List (String × String)) (p v : String) (gs : List String)
    (hv : kwargs.lookup p = some v) :
    get_queryset fieldEq base (some [(p, FieldRef.set gs)]) none kwargs
      = .error FilterError.typeErrorUnhashable := by
  rw [get_queryset_resolved fieldEq base (some [(p, FieldRef.set gs)]) none
    kwargs [(p, FieldRef.set gs)] rfl (by simp)]
  simp [buildFilters, processEntry, lookupParam, hv]

lemma singleFields_cons_single (p f : String) (rest : List (String × FieldRef)) :
    singleFields ((p, FieldRef.single f) :: rest) = f :: singleFields rest := rfl

lemma singleFields_cons_tup (p : String) (fs : List String)
    (rest : List (String × FieldRef)) :
    singleFields ((p, FieldRef.tup fs) :: rest) = singleFields rest := rfl

/-- Invariant of the loop over the mapping entries: when the loop succeeds
and no two single-field entries still to be processed target the same field
path (nor a field path already present in the accumulated keyword dict),
a record passes the final filters exactly when it passes the accumulated
ones and satisfies the constraint of every entry. -/
lemma buildFilters_sat {α : Type} (fieldEq : α → String → String → Bool)
    (kwargs : List (String × String)) :
    ∀ (m : List (String × FieldRef)) (acc af : List Q × List (String × String)),
      buildFilters kwargs acc m = .ok af →
      (singleFields m).Nodup →
      (∀ f ∈ singleFields m, ∀ fv ∈ acc.2, fv.1 ≠ f) →
      ∀ r, satisfiesFilters fieldEq af.1 af.2 r
        = (satisfiesFilters fieldEq acc.1 acc.2 r
            && m.all (entrySat fieldEq kwargs r)) := by
  intro m
  induction m with
  | nil =>
    intro acc af hok _ _ r
    simp only [buildFilters] at hok
    cases hok
    simp
  | cons e rest ih =>
    intro acc af hok hnd hfresh r
    obtain ⟨p, fr⟩ := e
    obtain ⟨args0, kw0⟩ := acc
    cases fr with
    | single f =>
      cases hv : kwargs.lookup p with
      | none => simp [buildFilters, processEntry, lookupParam, hv] at hok
      | some v =>
        have hstep : buildFilters kwargs (args0, kw0)
            ((p, FieldRef.single f) :: rest)
            = buildFilters kwargs (args0, dictInsert kw0 f v) rest := by
          simp [buildFilters, processEntry, lookupParam, hv]
        rw [hstep] at hok
        have hfreshf : ∀ fv ∈ kw0, fv.1 ≠ f := by
          intro fv hfv
          exact hfresh f (by simp [singleFields_cons_single]) fv hfv
        have hins : dictInsert kw0 f v = kw0 ++ [(f, v)] :=
          dictInsert_fresh kw0 f v hfreshf
        have hnd' : (singleFields rest).Nodup := by
          rw [singleFields_cons_single] at hnd
          exact hnd.of_cons
        have hnotmem : f ∉ singleFields rest := by
          rw [singleFields_cons_single, List.nodup_cons] at hnd
          exact hnd.1
        have hfresh' : ∀ g ∈ singleFields rest,
            ∀ fv ∈ (args0, dictInsert kw0 f v).2, fv.1 ≠ g := by
          intro g hg fv hfv
          simp only at hfv
          rw [hins] at hfv
          rcases List.mem_append.mp hfv with hl | hr
          · exact hfresh g (by simp [singleFields_cons_single, hg]) fv hl
          · have hfv2 : fv = (f, v) := by simpa using hr
            subst hfv2
            intro hcontra
            apply hnotmem
            have hfg : f = g := hcontra
            rw [hfg]
            exact hg
        have hres := ih (args0, dictInsert kw0 f v) af hok hnd' hfresh' r
        rw [hres]
        simp only [hins]
        rw [satisfiesFilters_kw_append]
        have hsat : entrySat fieldEq kwargs r (p, FieldRef.single f)
            = fieldEq r f v := by
          simp [entrySat, hv]
        simp [hsat, Bool.and_assoc]
    | tup fs =>
      cases fs with
      | nil => simp [buildFilters, processEntry] at hok
      | cons f fs' =>
        cases hv : kwargs.lookup p with
        | none => simp [buildFilters, processEntry, lookupParam, hv] at hok
        | some v =>
          have hstep : buildFilters kwargs (args0, kw0)
              ((p, FieldRef.tup (f :: fs')) :: rest)
              = buildFilters kwargs
                  (args0 ++
                    [(fs'.map (fun g => Q.eq g v)).foldl Q.or (Q.eq f v)], kw0)
                  rest := by
            simp [buildFilters, processEntry, lookupParam, hv]
          rw [hstep] at hok
          have hnd' : (singleFields rest).Nodup := by
            rw [singleFields_cons_tup] at hnd
            exact hnd
          have hfresh' : ∀ g ∈ singleFields rest,
              ∀ fv ∈ (args0 ++
                  [(fs'.map (fun g => Q.eq g v)).foldl Q.or (Q.eq f v)],
                  kw0).2, fv.1 ≠ g := by
            intro g hg fv hfv
            exact hfresh g (by rw [singleFields_cons_tup]; exact hg) fv hfv
          have hres := ih _ af hok hnd' hfresh' r
          rw [hres]
          rw [satisfiesFilters_args_append]
          have hsat : entrySat fieldEq kwargs r (p, FieldRef.tup (f :: fs'))
              = ((f :: fs').any (fun g => fieldEq r g v)) := by
            simp [entrySat, hv]
          have hmatch : Q.matches fieldEq
              ((fs'.map (fun g => Q.eq g v)).foldl Q.or (Q.eq f v)) r
              = ((f :: fs').any (fun g => fieldEq r g v)) := by
            rw [matches_foldl_or]
            simp [Q.matches, list_any_map]
          simp [hsat, hmatch, Bool.and_assoc]
    | set fs =>
      cases hv : kwargs.lookup p <;>
        simp [buildFilters, processEntry, lookupParam, hv] at hok

/-- Under a well-formed mapping (no sets, no empty tuples), the loop fails
exactly at the first entry whose path parameter is missing, with the
propagated KeyError for that parameter. -/
lemma buildFilters_wf_error (kwargs : List (String × String)) :
    ∀ (m : List (String × FieldRef)) (acc : List Q × List (String × String))
      (e : String × FieldRef),
      (∀ x ∈ m, wellFormedRef x.2 = true) →
      m.find? (fun x => (kwargs.lookup x.1).isNone) = some e →
      buildFilters kwargs acc m = .error (.keyError e.1) := by
  intro m
  induction m with
  | nil => intro acc e _ hfind; simp at hfind
  | cons x rest ih =>
    intro acc e hwf hfind
    obtain ⟨p, fr⟩ := x
    cases hv : kwargs.lookup p with
    | none =>
      have hpred : (fun x : String × FieldRef =>
          (kwargs.lookup x.1).isNone) (p, fr) = true := by simp [hv]
      rw [List.find?_cons_of_pos rest hpred] at hfind
      cases hfind
      cases fr with
      | single f => simp [buildFilters, processEntry, lookupParam, hv]
      | tup fs =>
        cases fs with
        | nil =>
          have := hwf (p, FieldRef.tup []) (by simp)
          simp [wellFormedRef] at this
        | cons f fs' => simp [buildFilters, processEntry, lookupParam, hv]
      | set fs =>
        have := hwf (p, FieldRef.set fs) (by simp)
        simp [wellFormedRef] at this
    | some v =>
      have hpred : ¬ (fun x : String × FieldRef =>
          (kwargs.lookup x.1).isNone) (p, fr) = true := by simp [hv]
      rw [List.find?_cons_of_neg rest hpred] at hfind
      have hwf' : ∀ x ∈ rest, wellFormedRef x.2 = true :=
        fun x hx => hwf x (List.mem_cons_of_mem _ hx)
      cases fr with
      | single f =>
        have hstep : buildFilters kwargs acc ((p, FieldRef.single f) :: rest)
            = buildFilters kwargs (acc.1, dictInsert acc.2 f v) rest := by
          simp [buildFilters, processEntry, lookupParam, hv]
        rw [hstep]
        exact ih _ e hwf' hfind
      | tup fs =>
        cases fs with
        | nil =>
          have := hwf (p, FieldRef.tup []) (by simp)
          simp [wellFormedRef] at this
        | cons f fs' =>
          have hstep : buildFilters kwargs acc
              ((p, FieldRef.tup (f :: fs')) :: rest)
              = buildFilters kwargs
                  (acc.1 ++
                    [(fs'.map (fun g => Q.eq g v)).foldl Q.or (Q.eq f v)],
                    acc.2) rest := by
            simp [buildFilters, processEntry, lookupParam, hv]
          rw [hstep]
          exact ih _ e hwf' hfind
      | set fs =>
        have := hwf (p, FieldRef.set fs) (by simp)
        simp [wellFormedRef] at this

/-- Under a well-formed mapping with no missing path parameter, the loop
succeeds. -/
lemma buildFilters_wf_ok (kwargs : List (String × String)) :
    ∀ (m : List (String × FieldRef)) (acc : List Q × List (String × String)),
      (∀ x ∈ m, wellFormedRef x.2 = true) →
      m.find? (fun x => (kwargs.lookup x.1).isNone) = none →
      ∃ af, buildFilters kwargs acc m = .ok af := by
  intro m
  induction m with
  | nil => intro acc _ _; exact ⟨acc, rfl⟩
  | cons x rest ih =>
    intro acc hwf hfind
    obtain ⟨p, fr⟩ := x
    rw [List.find?_eq_none] at hfind
    have hvsome : (kwargs.lookup p).isNone ≠ true :=
      hfind (p, fr) (by simp)
    cases hv : kwargs.lookup p with
    | none => exact absurd (by simp [hv]) hvsome
    | some v =>
      have hwf' : ∀ x ∈ rest, wellFormedRef x.2 = true :=
        fun x hx => hwf x (List.mem_cons_of_mem _ hx)
      have hfind' : rest.find? (fun x => (kwargs.lookup x.1).isNone) = none := by
        rw [List.find?_eq_none]
        exact fun x hx => hfind x (List.mem_cons_of_mem _ hx)
      cases fr with
      | single f =>
        have hstep : buildFilters kwargs acc ((p, FieldRef.single f) :: rest)
            = buildFilters kwargs (acc.1, dictInsert acc.2 f v) rest := by
          simp [buildFilters, processEntry, lookupParam, hv]
        rw [hstep]
        exact ih _ hwf' hfind'
      | tup fs =>
        cases fs with
        | nil =>
          have := hwf (p, FieldRef.tup []) (by simp)
          simp [wellFormedRef] at this
        | cons f fs' =>
          have hstep : buildFilters kwargs acc
              ((p, FieldRef.tup (f :: fs')) :: rest)
              = buildFilters kwargs
                  (acc.1 ++
                    [(fs'.map (fun g => Q.eq g v)).foldl Q.or (Q.eq f v)],
                    acc.2) rest := by
            simp [buildFilters, processEntry, lookupParam, hv]
          rw [hstep]
          exact ih _ hwf' hfind'
      | set fs =>
        have := hwf (p, FieldRef.set fs) (by simp)
        simp [wellFormedRef] at this

/-! ### Claim theorems -/

/-- Claim C4: when neither the viewset nor its serializer class carries a
parent_lookup_kwargs mapping, get_queryset returns the base queryset
unchanged, as a successful (non-error) result. -/
theorem no_mapping_identity {α : Type} (fieldEq : α → String → String → Bool)
    (base : List α) (kwargs : List (String × String)) :
    get_queryset fieldEq base none none kwargs = .ok base := rfl

/-- Claim C9: an empty viewset-level parent_lookup_kwargs is falsy, hence
treated exactly like an absent one (fallback to the serializer class), and
when the serializer mapping is also absent or empty the base queryset is
returned unfiltered. -/
theorem empty_mapping_fallback {α : Type} (fieldEq : α → String → String → Bool)
    (base : List α) (sl : Option (List (String × FieldRef)))
    (kwargs : List (String × String)) :
    (get_queryset fieldEq base (some []) sl kwargs
       = get_queryset fieldEq base none sl kwargs)
    ∧ get_queryset fieldEq base (some []) none kwargs = .ok base
    ∧ get_queryset fieldEq base (some []) (some []) kwargs = .ok base :=
  ⟨rfl, rfl, rfl⟩

/-- Claim C6: when the viewset defines a (nonempty, hence truthy)
parent_lookup_kwargs of its own, the serializer-class mapping is ignored:
the resolution picks the viewset mapping and the result is the same
whatever the serializer attribute is; the serializer mapping is the
resolution only when the viewset attribute is absent. -/
theorem viewset_mapping_precedence {α : Type}
    (fieldEq : α → String → String → Bool) (base : List α)
    (m : List (String × FieldRef)) (sl : Option (List (String × FieldRef)))
    (kwargs : List (String × String)) (hm : m ≠ []) :
    (get_queryset fieldEq base (some m) sl kwargs
      = get_queryset fieldEq base (some m) none kwargs)
    ∧ resolvedLookup (some m) sl = some m
    ∧ resolvedLookup none sl = sl := by
  have ht : truthyMap (some m) = true := by simpa [truthyMap] using hm
  refine ⟨?_, ?_, rfl⟩
  · unfold get_queryset resolvedLookup
    rw [ht]
    simp
  · unfold resolvedLookup
    rw [ht]
    simp

/-- Witness for C6 at a concrete input: both the viewset and the serializer
carry a mapping and the serializer one is ignored. -/
theorem viewset_mapping_precedence_witness :
    (get_queryset recFieldEq [[("f", "1")]] (some [("a", FieldRef.single "f")])
        (some [("b", FieldRef.single "g")]) [("a", "1"), ("b", "2")]
      = get_queryset recFieldEq [[("f", "1")]]
          (some [("a", FieldRef.single "f")]) none [("a", "1"), ("b", "2")])
    ∧ resolvedLookup (some [("a", FieldRef.single "f")])
        (some [("b", FieldRef.single "g")]) = some [("a", FieldRef.single "f")]
    ∧ resolvedLookup none (some [("b", FieldRef.single "g")])
        = some [("b", FieldRef.single "g")] :=
  viewset_mapping_precedence recFieldEq [[("f", "1")]]
    [("a", FieldRef.single "f")] (some [("b", FieldRef.single "g")])
    [("a", "1"), ("b", "2")] (by decide)

/-- Claim C1: with a resolved single-entry mapping sending path parameter p
to the single field path f, get_queryset returns exactly the records of the
base queryset whose field f equals the value of p, for every base queryset
and every parameter value (including the empty result). -/
theorem single_field_filtering {α : Type}
    (fieldEq : α → String → String → Bool) (base : List α)
    (vl sl : Option (List (String × FieldRef)))
    (kwargs : List (String × String)) (p f v : String)
    (hres : resolvedLookup vl sl = some [(p, FieldRef.single f)])
    (hv : kwargs.lookup p = some v) :
    get_queryset fieldEq base vl sl kwargs
      = .ok (base.filter (fun r => fieldEq r f v)) :=
  get_queryset_single_entry fieldEq base vl sl kwargs p f v hres hv

/-- Witness for C1 at a concrete input: two records, one matching. -/
theorem single_field_filtering_witness :
    get_queryset recFieldEq [[("f", "1")], [("f", "2")]]
        (some [("a", FieldRef.single "f")]) none [("a", "1")]
      = .ok [[("f", "1")]] :=
  (single_field_filtering recFieldEq [[("f", "1")], [("f", "2")]]
      (some [("a", FieldRef.single "f")]) none [("a", "1")] "a" "f" "1"
      rfl rfl).trans rfl

/-- Claim C2: with a resolved single-entry mapping sending path parameter p
to a nonempty tuple of field paths, get_queryset returns exactly the records
where at least one of the listed fields equals the value of p (a disjunction
of equalities against the same value, added as one conjunctive term). -/
theorem tuple_field_filtering {α : Type}
    (fieldEq : α → String → String → Bool) (base : List α)
    (vl sl : Option (List (String × FieldRef)))
    (kwargs : List (String × String)) (p v : String) (fs : List String)
    (hfs : fs ≠ [])
    (hres : resolvedLookup vl sl = some [(p, FieldRef.tup fs)])
    (hv : kwargs.lookup p = some v) :
    get_queryset fieldEq base vl sl kwargs
      = .ok (base.filter (fun r => fs.any (fun f => fieldEq r f v))) := by
  obtain ⟨f, fs', rfl⟩ : ∃ f fs', fs = f :: fs' := by
    cases fs with
    | nil => exact absurd rfl hfs
    | cons f fs' => exact ⟨f, fs', rfl⟩
  exact get_queryset_tuple_entry fieldEq base vl sl kwargs p v f fs' hres hv

/-- Witness for C2 at a concrete input: one record matches through the first
field, one through the second, one not at all. -/
theorem tuple_field_filtering_witness :
    get_queryset recFieldEq [[("f", "1")], [("g", "1")], [("f", "2")]]
        (some [("a", FieldRef.tup ["f", "g"])]) none [("a", "1")]
      = .ok [[("f", "1")], [("g", "1")]] :=
  (tuple_field_filtering recFieldEq [[("f", "1")], [("g", "1")], [("f", "2")]]
      (some [("a", FieldRef.tup ["f", "g"])]) none [("a", "1")] "a" "1"
      ["f", "g"] (by decide) rfl rfl).trans rfl

/-- Claim C10: two distinct path parameters mapped to the same single field
path end up as the same dict key in orm_kwargs_filters, so the entry
iterated last overwrites the earlier one: only the equality against the last
value is applied and the earlier constraint is silently dropped. -/
theorem same_field_last_entry_wins {α : Type}
    (fieldEq : α → String → String → Bool) (base : List α)
    (p1 p2 f v1 v2 : String) (kwargs : List (String × String))
    (_hne : p1 ≠ p2) (h1 : kwargs.lookup p1 = some v1)
    (h2 : kwargs.lookup p2 = some v2) :
    get_queryset fieldEq base
        (some [(p1, FieldRef.single f), (p2, FieldRef.single f)]) none kwargs
      = .ok (base.filter (fun r => fieldEq r f v2)) := by
  rw [get_queryset_resolved fieldEq base
    (some [(p1, FieldRef.single f), (p2, FieldRef.single f)]) none kwargs
    [(p1, FieldRef.single f), (p2, FieldRef.single f)] rfl (by simp)]
  simp only [buildFilters, processEntry, lookupParam, h1, h2, dictInsert,
    querysetFilter]
  simp only [List.any_nil, Bool.false_eq_true, if_false, List.nil_append,
    List.any_cons, beq_self_eq_true, Bool.true_or, if_true, List.map_cons,
    List.map_nil, Except.ok.injEq]
  apply List.filter_congr
  intro r _
  simp [satisfiesFilters]

/-- Witness for C10 at a concrete input: the record matching the last value
is kept even though it violates the first entry, and the record matching
only the first entry is dropped (the constraints are not conjoined). -/
theorem same_field_last_entry_wins_witness :
    get_queryset recFieldEq [[("f", "2")], [("f", "1")]]
        (some [("a", FieldRef.single "f"), ("b", FieldRef.single "f")]) none
        [("a", "1"), ("b", "2")]
      = .ok [[("f", "2")]] :=
  (same_field_last_entry_wins recFieldEq [[("f", "2")], [("f", "1")]]
      "a" "b" "f" "1" "2" [("a", "1"), ("b", "2")] (by decide) rfl
      rfl).trans rfl

/-- Counterexample to claim C3 as stated: with two entries mapping different
path parameters to the same single field path f, the record with f equal to
the second value is in the filtered result although it violates the
constraint of the first entry, so membership is not equivalent to
satisfying every entry. -/
theorem entries_conjunction_cex :
    get_queryset recFieldEq [[("f", "2")]]
        (some [("a", FieldRef.single "f"), ("b", FieldRef.single "f")]) none
        [("a", "1"), ("b", "2")] = .ok [[("f", "2")]]
    ∧ entrySat recFieldEq [("a", "1"), ("b", "2")] [[("f", "2")]].head!
        ("a", FieldRef.single "f") = false :=
  ⟨rfl, rfl⟩

/-- Claim C3 (amended): when no two single-field entries of the resolved
mapping target the same field path, all derived terms are combined with
logical AND: a record is in the filtered result iff it is in the base
queryset and satisfies the constraint of every entry. -/
theorem entries_conjunction {α : Type} (fieldEq : α → String → String → Bool)
    (base res : List α) (m : List (String × FieldRef))
    (kwargs : List (String × String))
    (hnd : (singleFields m).Nodup)
    (hok : get_queryset fieldEq base (some m) none kwargs = .ok res) :
    ∀ r, r ∈ res ↔ r ∈ base ∧ m.all (entrySat fieldEq kwargs r) = true := by
  intro r
  by_cases hm : m = []
  · subst hm
    simp only [get_queryset, resolvedLookup, truthyMap] at hok
    simp only [List.isEmpty_nil, Bool.not_true, Bool.false_eq_true,
      if_false] at hok
    cases hok
    simp
  · rw [get_queryset_resolved fieldEq base (some m) none kwargs m
      (by simp [resolvedLookup, truthyMap, hm]) hm] at hok
    cases hbf : buildFilters kwargs ([], []) m with
    | error e => rw [hbf] at hok; cases hok
    | ok af =>
      rw [hbf] at hok
      simp only [Except.ok.injEq] at hok
      subst hok
      have hsat := buildFilters_sat fieldEq kwargs m ([], []) af hbf hnd
        (by intro f _ fv hfv; simp at hfv) r
      have hsat0 : satisfiesFilters fieldEq ([] : List Q)
          ([] : List (String × String)) r = true := rfl
      rw [hsat0, Bool.true_and] at hsat
      unfold querysetFilter
      rw [List.mem_filter, hsat]

/-- Witness for the amended C3 at a concrete input: a mapping with one
single-field and one tuple entry, and the conjunction characterizing the
result. -/
theorem entries_conjunction_witness :
    ([("f", "1"), ("g", "7")] : RecordL)
        ∈ ([[("f", "1"), ("g", "7")]] : List RecordL) ↔
      ([("f", "1"), ("g", "7")] : RecordL)
          ∈ ([[("f", "1"), ("g", "7")], [("f", "1"), ("h", "9")]] :
              List RecordL) ∧
        ([("a", FieldRef.single "f"), ("b", FieldRef.tup ["g", "h"])].all
          (entrySat recFieldEq [("a", "1"), ("b", "7")]
            [("f", "1"), ("g", "7")])) = true :=
  entries_conjunction recFieldEq
    [[("f", "1"), ("g", "7")], [("f", "1"), ("h", "9")]]
    [[("f", "1"), ("g", "7")]]
    [("a", FieldRef.single "f"), ("b", FieldRef.tup ["g", "h"])]
    [("a", "1"), ("b", "7")] (by decide) rfl [("f", "1"), ("g", "7")]

/-- Counterexample to claim C5 as stated: the mapping sends parameter a to
an empty tuple and a is absent from the path parameters, yet the failure is
the TypeError of reducing an empty iterable (raised before the parameter is
ever looked up), not a missing-parameter KeyError. -/
theorem missing_param_iff_cex :
    get_queryset recFieldEq ([] : List RecordL)
        (some [("a", FieldRef.tup [])]) none [] =
      .error FilterError.typeErrorReduceEmpty
    ∧ FilterError.typeErrorReduceEmpty ≠ FilterError.keyError "a" :=
  ⟨rfl, by decide⟩

/-- Claim C5 (amended): for a mapping whose field references are all single
field paths or nonempty tuples, get_queryset fails with a missing-parameter
KeyError iff some path-parameter name of the mapping is absent from the
path parameters; moreover the raised KeyError names the first entry in
mapping order whose parameter is missing, so the operation fails atomically
there and no partially filtered query is produced. -/
theorem missing_param_iff {α : Type} (fieldEq : α → String → String → Bool)
    (base : List α) (m : List (String × FieldRef))
    (kwargs : List (String × String))
    (hwf : ∀ e ∈ m, wellFormedRef e.2 = true) :
    ((∃ p, p ∈ m.map Prod.fst ∧ kwargs.lookup p = none)
      ↔ ∃ p, get_queryset fieldEq base (some m) none kwargs
          = .error (FilterError.keyError p))
    ∧ ∀ p, get_queryset fieldEq base (some m) none kwargs
          = .error (FilterError.keyError p) →
        (m.find? (fun e => (kwargs.lookup e.1).isNone)).map Prod.fst
          = some p := by
  by_cases hm : m = []
  · subst hm
    constructor
    · constructor
      · rintro ⟨p, hp, _⟩
        simp at hp
      · rintro ⟨p, hp⟩
        simp only [get_queryset, resolvedLookup, truthyMap,
          List.isEmpty_nil, Bool.not_true, Bool.false_eq_true, if_false] at hp
        cases hp
    · intro p hp
      simp only [get_queryset, resolvedLookup, truthyMap,
        List.isEmpty_nil, Bool.not_true, Bool.false_eq_true, if_false] at hp
      cases hp
  · have hresolve : resolvedLookup (some m) none = some m := by
      simp [resolvedLookup, truthyMap, hm]
    cases hF : m.find? (fun e => (kwargs.lookup e.1).isNone) with
    | none =>
      obtain ⟨af, haf⟩ := buildFilters_wf_ok kwargs m ([], []) hwf hF
      have hq : get_queryset fieldEq base (some m) none kwargs
          = .ok (querysetFilter fieldEq af.1 af.2 base) := by
        rw [get_queryset_resolved fieldEq base (some m) none kwargs m
          hresolve hm, haf]
      constructor
      · constructor
        · rintro ⟨p, hp, hnone⟩
          obtain ⟨e, he, hep⟩ := List.mem_map.mp hp
          rw [List.find?_eq_none] at hF
          exact absurd (by simp [hep, hnone]) (hF e he)
        · rintro ⟨p, hp⟩
          rw [hq] at hp
          cases hp
      · intro p hp
        rw [hq] at hp
        cases hp
    | some e =>
      have herr : buildFilters kwargs ([], []) m = .error (.keyError e.1) :=
        buildFilters_wf_error kwargs m ([], []) e hwf hF
      have hq : get_queryset fieldEq base (some m) none kwargs
          = .error (.keyError e.1) := by
        rw [get_queryset_resolved fieldEq base (some m) none kwargs m
          hresolve hm, herr]
      have hmem : e ∈ m := List.mem_of_find?_eq_some hF
      have hnone : kwargs.lookup e.1 = none := by
        have := List.find?_some hF
        simpa [Option.isNone_iff_eq_none] using this
      constructor
      · constructor
        · intro _
          exact ⟨e.1, hq⟩
        · intro _
          exact ⟨e.1, List.mem_map.mpr ⟨e, hmem, rfl⟩, hnone⟩
      · intro p hp
        rw [hq] at hp
        have hep : e.1 = p := by
          injection hp with hp2
          injection hp2
        simp [hep]

/-- Witness for the amended C5 at a concrete input: a well-formed one-entry
mapping whose parameter is missing. -/
theorem missing_param_iff_witness :
    ((∃ p, p ∈ [("a", FieldRef.single "f")].map Prod.fst
        ∧ ([] : List (String × String)).lookup p = none)
      ↔ ∃ p, get_queryset recFieldEq ([] : List RecordL)
          (some [("a", FieldRef.single "f")]) none []
          = .error (FilterError.keyError p))
    ∧ ∀ p, get_queryset recFieldEq ([] : List RecordL)
          (some [("a", FieldRef.single "f")]) none []
          = .error (FilterError.keyError p) →
        ([("a", FieldRef.single "f")].find?
            (fun e => (([] : List (String × String)).lookup e.1).isNone)).map
          Prod.fst = some p :=
  missing_param_iff recFieldEq ([] : List RecordL)
    [("a", FieldRef.single "f")] [] (by decide)

/-- Counterexample to claim C7 as stated: a set field reference does not get
OR semantics; the isinstance tuple check fails, the set lands in the keyword
dict as a key, and a TypeError is raised instead of the filtered result the
claim demands. -/
theorem field_reference_shapes_cex :
    get_queryset recFieldEq [[("f", "1")]]
        (some [("a", FieldRef.set ["f", "g"])]) none [("a", "1")]
      = .error FilterError.typeErrorUnhashable := rfl

/-- Claim C7 (amended): a field reference may be a single field-path string
or a tuple of field-path strings; a single string filters by equality, a
tuple filters a record when any of its fields equals the parameter value
(OR semantics); a set is not recognized as a multi-field reference and
raises a TypeError instead. -/
theorem field_reference_shapes {α : Type}
    (fieldEq : α → String → String → Bool) (base : List α) (p v f : String)
    (fs gs : List String) (kwargs : List (String × String))
    (hv : kwargs.lookup p = some v) :
    (get_queryset fieldEq base (some [(p, FieldRef.single f)]) none kwargs
      = .ok (base.filter (fun r => fieldEq r f v)))
    ∧ (get_queryset fieldEq base (some [(p, FieldRef.tup (f :: fs))]) none
        kwargs
      = .ok (base.filter (fun r => (f :: fs).any (fun g => fieldEq r g v))))
    ∧ (get_queryset fieldEq base (some [(p, FieldRef.set gs)]) none kwargs
      = .error FilterError.typeErrorUnhashable) :=
  ⟨get_queryset_single_entry fieldEq base _ none kwargs p f v rfl hv,
   get_queryset_tuple_entry fieldEq base _ none kwargs p v f fs rfl hv,
   get_queryset_set_entry fieldEq base kwargs p v gs hv⟩

/-- Witness for the amended C7 at a concrete input. -/
theorem field_reference_shapes_witness :
    (get_queryset recFieldEq [[("f", "1")], [("g", "1")]]
        (some [("a", FieldRef.single "f")]) none [("a", "1")]
      = .ok ([[("f", "1")], [("g", "1")]].filter
          (fun r => recFieldEq r "f" "1")))
    ∧ (get_queryset recFieldEq [[("f", "1")], [("g", "1")]]
        (some [("a", FieldRef.tup ["f", "g"])]) none [("a", "1")]
      = .ok ([[("f", "1")], [("g", "1")]].filter
          (fun r => (["f", "g"] : List String).any
            (fun g => recFieldEq r g "1"))))
    ∧ (get_queryset recFieldEq [[("f", "1")], [("g", "1")]]
        (some [("a", FieldRef.set ["f", "g"])]) none [("a", "1")]
      = .error FilterError.typeErrorUnhashable) :=
  field_reference_shapes recFieldEq [[("f", "1")], [("g", "1")]] "a" "1" "f"
    ["g"] ["f", "g"] [("a", "1")] rfl

/-- Claim C8: filtering is idempotent: if get_queryset succeeds on the base
queryset, applying it again to the returned result (same mappings, same
path parameters) returns that result unchanged. -/
theorem filtering_idempotent {α : Type} (fieldEq : α → String → String → Bool)
    (base res : List α) (vl sl : Option (List (String × FieldRef)))
    (kwargs : List (String × String))
    (h : get_queryset fieldEq base vl sl kwargs = .ok res) :
    get_queryset fieldEq res vl sl kwargs = .ok res := by
  unfold get_queryset at h ⊢
  cases hres : resolvedLookup vl sl with
  | none => rfl
  | some m =>
    rw [hres] at h
    dsimp only at h ⊢
    by_cases hm : m.isEmpty
    · rw [if_pos hm]
    · rw [if_neg hm] at h ⊢
      cases hbf : buildFilters kwargs ([], []) m with
      | error e =>
        rw [hbf] at h
        simp at h
      | ok af =>
        rw [hbf] at h
        dsimp only at h ⊢
        simp only [Except.ok.injEq] at h ⊢
        rw [← h]
        unfold querysetFilter
        rw [List.filter_eq_self]
        intro a ha
        exact (List.mem_filter.mp ha).2

/-- Witness for C8 at a concrete input: the first application filters two
records down to one; the second application leaves that result unchanged. -/
theorem filtering_idempotent_witness :
    get_queryset recFieldEq [[("f", "1")]] (some [("a", FieldRef.single "f")])
        none [("a", "1")] = .ok [[("f", "1")]] :=
  filtering_idempotent recFieldEq [[("f", "1")], [("f", "2")]] [[("f", "1")]]
    (some [("a", FieldRef.single "f")]) none [("a", "1")] rfl

end DrfNested
